import Mathlib

/-!
Verification development for the feature-extraction layer of the NameTag
named-entity recognizer (src/features/feature_processor_instances.cpp).

The C++ code is shallowly embedded: each feature processor's
`process_sentence` is modelled as a pure function from the processor state
and the sentence to the per-token feature accumulators; feature ids are
modelled as `Int`, and the per-token accumulators as `List (List Int)`.
Stateful C++ loops are modelled by explicit folds; bounded `while` loops by
fuel-based structural recursion with fuel provably at least the iteration
count.  Parts of the repository that are not in the provided sources
(notably `feature_processor.h` with the interning `lookup` table, the
unicode category tables and the URL detector) are modelled from the spec;
their models are marked `Modelled from the spec:` in the doc comment.
-/

namespace NameTag

/-- Feature ids (`ner_feature`, an unsigned integer in the C++ code) are
modelled as mathematical integers; window offsets can be negative, and no
realistic feature id comes near the wrap-around point. -/
abbrev ner_feature := Int

/-- Modelled from the spec: `feature_processor.h` (not among the provided
sources) defines the `ner_feature_unknown` sentinel, the "no feature"
marker (`~0u` in C++, here a distinguished integer outside the feature id
space of non-negative ids). -/
def ner_feature_unknown : ner_feature := -1

/-- The per-token feature accumulators `sentence.features`: one append-only
list of feature ids per token position. -/
abbrev Features := List (List Int)

/-- The positionwise worker of the `apply_in_range` macro: walks the
accumulator list, keeping track of the absolute position `p0` of its head,
and appends `f + p - i` at every position `p` with `i + L ≤ p ≤ i + R`. -/
def applyFrom (i f L R : Int) : Nat → Features → Features
  | _, [] => []
  | p0, fs :: rest =>
    (if i + L ≤ (p0 : Int) ∧ (p0 : Int) ≤ i + R then fs ++ [f + p0 - i] else fs)
      :: applyFrom i f L R (p0 + 1) rest

/-- The `apply_in_range(I, Feature, Left, Right)` macro of
`feature_processor_instances.cpp`: if the feature is the unknown sentinel do
nothing; otherwise append `Feature + _w - I` to `features[_w]` for every
`_w` from `max(0, I + Left)` to `min(size - 1, I + Right)`.  The clipping to
`[0, size)` is inherent in walking the accumulator list. -/
def apply_in_range (i f L R : Int) (feats : Features) : Features :=
  if f = ner_feature_unknown then feats else applyFrom i f L R 0 feats

theorem applyFrom_length (i f L R : Int) :
    ∀ (p0 : Nat) (l : Features), (applyFrom i f L R p0 l).length = l.length := by
  intro p0 l
  induction l generalizing p0 with
  | nil => rfl
  | cons fs rest ih => simp [applyFrom, ih]

theorem applyFrom_getD (i f L R : Int) :
    ∀ (l : Features) (p0 p : Nat), p < l.length →
      (applyFrom i f L R p0 l).getD p [] =
        l.getD p [] ++
          (if i + L ≤ ((p0 + p : Nat) : Int) ∧ ((p0 + p : Nat) : Int) ≤ i + R
           then [f + (p0 + p : Nat) - i] else []) := by
  intro l
  induction l with
  | nil => intro p0 p hp; simp at hp
  | cons fs rest ih =>
    intro p0 p hp
    cases p with
    | zero =>
      simp only [applyFrom, List.getD_cons_zero, Nat.add_zero]
      split <;> simp
    | succ p =>
      simp only [applyFrom, List.getD_cons_succ]
      have h : p < rest.length := by simpa using hp
      have := ih (p0 + 1) p h
      have harg : p0 + 1 + p = p0 + (p + 1) := by omega
      rw [this, harg]

theorem apply_in_range_length (i f L R : Int) (feats : Features) :
    (apply_in_range i f L R feats).length = feats.length := by
  unfold apply_in_range
  split
  · rfl
  · exact applyFrom_length i f L R 0 feats

theorem apply_in_range_getD (i f L R : Int) (feats : Features) (hne : f ≠ ner_feature_unknown)
    (p : Nat) (hp : p < feats.length) :
    (apply_in_range i f L R feats).getD p [] =
      feats.getD p [] ++
        (if i + L ≤ (p : Int) ∧ (p : Int) ≤ i + R then [f + p - i] else []) := by
  unfold apply_in_range
  rw [if_neg hne]
  have := applyFrom_getD i f L R feats 0 p hp
  simpa using this

/-- One invocation of the window-emission primitive: current token index
`i` (as an integer: the outer-words form passes out-of-bounds indices), the
base feature id `f`, and the relative range `[L, R]`. -/
structure Call where
  i : Int
  f : Int
  lo : Int
  hi : Int
deriving DecidableEq

def applyCall (c : Call) (feats : Features) : Features :=
  apply_in_range c.i c.f c.lo c.hi feats

/-- What one call appends at absolute position `p`. -/
def callAppend (c : Call) (p : Nat) : List Int :=
  if c.f ≠ ner_feature_unknown ∧ c.i + c.lo ≤ (p : Int) ∧ (p : Int) ≤ c.i + c.hi
  then [c.f + p - c.i] else []

/-- A `process_sentence` body is a sequence of `apply_in_range` invocations
whose arguments do not depend on the accumulators; it is modelled as a fold
of the primitive over the list of calls the code makes, in program order. -/
def applyCalls (cs : List Call) (feats : Features) : Features :=
  cs.foldl (fun fs c => applyCall c fs) feats

theorem applyCall_getD (c : Call) (feats : Features) (p : Nat) (hp : p < feats.length) :
    (applyCall c feats).getD p [] = feats.getD p [] ++ callAppend c p := by
  unfold applyCall callAppend
  by_cases hne : c.f = ner_feature_unknown
  · simp [apply_in_range, hne]
  · rw [apply_in_range_getD c.i c.f c.lo c.hi feats hne p hp]
    simp [hne]

theorem applyCall_length (c : Call) (feats : Features) :
    (applyCall c feats).length = feats.length :=
  apply_in_range_length c.i c.f c.lo c.hi feats

theorem applyCalls_length (cs : List Call) (feats : Features) :
    (applyCalls cs feats).length = feats.length := by
  induction cs generalizing feats with
  | nil => rfl
  | cons c rest ih =>
    show (applyCalls rest (applyCall c feats)).length = feats.length
    rw [ih, applyCall_length]

theorem applyCalls_getD (cs : List Call) (feats : Features) (p : Nat) (hp : p < feats.length) :
    (applyCalls cs feats).getD p [] =
      feats.getD p [] ++ cs.flatMap (fun c => callAppend c p) := by
  induction cs generalizing feats with
  | nil => simp [applyCalls]
  | cons c rest ih =>
    show (applyCalls rest (applyCall c feats)).getD p [] = _
    rw [ih (applyCall c feats) (by rw [applyCall_length]; exact hp),
        applyCall_getD c feats p hp]
    simp [List.flatMap]

/-- C1: the window emission primitive.  When the feature is the unknown
sentinel the accumulators are unchanged; otherwise exactly the id
`f + (p - i)` is appended to `features[p]` for every position `p` in
`[max(0, i+L), min(size-1, i+R)]`, and nothing is appended at any other
position. -/
theorem apply_in_range_window_emission (i f L R : Int) (feats : Features) :
    (f = ner_feature_unknown → apply_in_range i f L R feats = feats) ∧
    (f ≠ ner_feature_unknown → ∀ p : Nat, p < feats.length →
      (apply_in_range i f L R feats).getD p [] =
        feats.getD p [] ++
          (if max 0 (i + L) ≤ (p : Int) ∧ (p : Int) ≤ min ((feats.length : Int) - 1) (i + R)
           then [f + p - i] else [])) := by
  constructor
  · intro hf
    simp [apply_in_range, hf]
  · intro hne p hp
    rw [apply_in_range_getD i f L R feats hne p hp]
    congr 1
    have h0 : (0 : Int) ≤ (p : Int) := Int.ofNat_nonneg p
    have h1 : (p : Int) ≤ (feats.length : Int) - 1 := by
      have : (p : Int) < (feats.length : Int) := by exact_mod_cast hp
      omega
    by_cases hc : i + L ≤ (p : Int) ∧ (p : Int) ≤ i + R
    · rw [if_pos hc, if_pos ⟨by omega, by omega⟩]
    · rw [if_neg hc, if_neg (by omega)]

/-- Witness of C1 at a concrete input: `i = 1`, `f = 5`, range `[-1, 1]` on
three positions; the primitive appends `4, 5, 6` at positions `0, 1, 2`. -/
theorem apply_in_range_window_emission_witness :
    ((5 : Int) ≠ ner_feature_unknown) ∧
      (apply_in_range 1 5 (-1) 1 [[], [], []]).getD 0 [] =
        ([] : List Int) ++
          (if max 0 ((1 : Int) + (-1)) ≤ ((0 : Nat) : Int) ∧
              ((0 : Nat) : Int) ≤ min ((([[], [], []] : Features).length : Int) - 1) (1 + 1)
           then [5 + ((0 : Nat) : Int) - 1] else []) :=
  ⟨by decide,
   (apply_in_range_window_emission 1 5 (-1) 1 [[], [], []]).2 (by decide) 0 (by decide)⟩

/-- One token of a sentence, with the morphological fields read during
feature emission (`ner_word` in the C++ code). -/
structure ner_word where
  form : String
  raw_lemma : String
  lemma_id : String
  lemma_comments : String
  tag : String
deriving DecidableEq

instance : Inhabited ner_word := ⟨⟨"", "", "", "", ""⟩⟩

/-- Modelled from the spec: the BILOU tagged enum of `bilou_type` in the
headers (not among the provided sources): `unknown | B | I | L | O | U`. -/
inductive bilou_type where
  | B
  | I
  | L
  | O
  | U
  | unknown
deriving DecidableEq

/-- Modelled from the spec: the integer value of the `bilou_type` enum used
when hex-encoding the previous-stage key (the concrete numbering only
influences the content of the interned key string). -/
def bilou_type.toInt : bilou_type → Int
  | .B => 0
  | .I => 1
  | .L => 2
  | .O => 3
  | .U => 4
  | .unknown => 5

/-- Modelled from the spec: the `entity_type_unknown` sentinel of the
entity-type id space (`~0u` in C++). -/
def entity_type_unknown : Int := -1

/-- The per-token previous-stage annotation `{bilou, entity}`. -/
structure prev_stage_info where
  bilou : bilou_type
  entity : Int
deriving DecidableEq

instance : Inhabited prev_stage_info := ⟨⟨.unknown, entity_type_unknown⟩⟩

/-- The sentence fields read during feature emission. -/
structure ner_sentence where
  words : List ner_word
  previous_stage : List prev_stage_info
deriving DecidableEq

def ner_sentence.size (s : ner_sentence) : Nat := s.words.length

def wordAt (s : ner_sentence) (i : Nat) : ner_word := s.words.getD i default

def prevAt (s : ner_sentence) (i : Nat) : prev_stage_info := s.previous_stage.getD i default

/-- Modelled from the spec: the external capabilities a processor reads
during `process_sentence` — the string-interning `lookup` of
`feature_processor.h` (a snapshot, as a pure function from keys to feature
ids), and the unilib unicode category tests `Lut = Lu|Lt` and `Ll`. -/
structure ner_env where
  lookup : String → Int
  cat_Lut : Char → Bool
  cat_Ll : Char → Bool

/-- `apply_in_window(I, Feature)` = `apply_in_range(I, Feature, -window, window)`. -/
def window_call (w : Nat) (i f : Int) : Call := ⟨i, f, -(w : Int), (w : Int)⟩

/-- The `lookup_empty()` macro: looking up the empty string always returns
the sentinel `window`, the centre of an as-yet-unallocated `2w+1` band. -/
def lookup_empty (w : Nat) : Int := (w : Int)

/-- `apply_outer_words_in_window(Feature)`: for `_i = 1 .. window`, apply
the feature in window at the virtual positions `-_i` and `size - 1 + _i`. -/
def outer_calls (w : Nat) (size : Nat) (f : Int) : List Call :=
  if f = ner_feature_unknown then []
  else (List.range w).flatMap (fun k =>
    [window_call w (-((k : Int) + 1)) f, window_call w ((size : Int) - 1 + ((k : Int) + 1)) f])

/-- The keys `CzechLemmaTerm` looks up for one token: for every position
`pos` with `pos + 2 < |lemma_comments|` where `lemma_comments[pos] = '_'`
and `lemma_comments[pos+1] = ';'`, the one-character string
`lemma_comments[pos+2]`. -/
def czlt_keys (comments : String) : List String :=
  (List.range (comments.data.length - 2)).filterMap (fun pos =>
    if comments.data.getD pos ' ' = '_' ∧ comments.data.getD (pos + 1) ' ' = ';'
    then some (String.mk [comments.data.getD (pos + 2) ' ']) else none)

/-- The calls of `form_capitalization` / `raw_lemma_capitalization` at one
token: `f` if the first codepoint is uppercase (emitted during the scan, at
the first codepoint), then `a` iff some codepoint was upper and none lower,
then `m` iff some was upper and some lower. -/
def first_upper (catU : Char → Bool) : List Char → Bool
  | [] => false
  | c :: _ => catU c

def cap_calls_at (catU catL : Char → Bool) (fst_cap all_cap mixed_cap : Int)
    (w : Nat) (i : Nat) (s : String) : List Call :=
  let cs := s.data
  let was_upper := cs.any catU
  let was_lower := cs.any catL
  (if first_upper catU cs then [window_call w i fst_cap] else []) ++
  (if was_upper ∧ ¬ was_lower then [window_call w i all_cap] else []) ++
  (if was_upper ∧ was_lower then [window_call w i mixed_cap] else [])

def isDigitChar (c : Char) : Bool := '0' ≤ c ∧ c ≤ '9'

def digitVal (c : Char) : Nat := c.toNat - '0'.toNat

/-- The digit-run accumulator of `number_time_value`: `num` is an `unsigned`
in C++, so each step `num = num * 10 + (*form - '0')` wraps modulo `2^32`. -/
def accumNum (ds : List Char) : Nat :=
  ds.foldl (fun n c => (n * 10 + digitVal c) % 4294967296) 0

/-- The mathematical (unbounded) value of a digit run, for stating what the
wrap-around changes. -/
def decimalValue (ds : List Char) : Nat :=
  ds.foldl (fun n c => n * 10 + digitVal c) 0

/-- The calls of `number_time_value` at one token: if the form is entirely
digits, the `H M d m y` range features on the (wrapped) value; if a digit
run below 24 is followed by `.` or `:` and a second digit run below 60 that
consumes the rest, the `t` feature. -/
def ntv_calls_at (lookup : String → Int) (w : Nat) (i : Nat) (s : String) : List Call :=
  let cs := s.data
  let digits := cs.takeWhile isDigitChar
  let rest := cs.dropWhile isDigitChar
  let digit := digits ≠ []
  let num := accumNum digits
  (if digit ∧ rest = [] then
    (if num < 24 then [window_call w i (lookup "H")] else []) ++
    (if num < 60 then [window_call w i (lookup "M")] else []) ++
    (if 1 ≤ num ∧ num ≤ 31 then [window_call w i (lookup "d")] else []) ++
    (if 1 ≤ num ∧ num ≤ 12 then [window_call w i (lookup "m")] else []) ++
    (if 1000 ≤ num ∧ num ≤ 2200 then [window_call w i (lookup "y")] else [])
   else []) ++
  (if digit ∧ num < 24 ∧ (rest.headD (Char.ofNat 0) = '.' ∨ rest.headD (Char.ofNat 0) = ':') then
    let cs2 := rest.tail
    let digits2 := cs2.takeWhile isDigitChar
    let rest2 := cs2.dropWhile isDigitChar
    if digits2 ≠ [] ∧ rest2 = [] ∧ accumNum digits2 < 60
    then [window_call w i (lookup "t")] else []
   else [])

def hex_digit_char (n : Nat) : Char := "0123456789abcdef".data.getD n '0'

/-- Nibble extraction loop of `append_encoded`, low nibble first; the fuel
argument (instantiated with the value itself, which bounds the number of
nibbles) makes the recursion structural. -/
def hex_digits : Nat → Nat → List Char
  | 0, _ => []
  | fuel + 1, v => if v = 0 then [] else hex_digit_char (v % 16) :: hex_digits fuel (v / 16)

/-- `previous_stage::append_encoded`: a `-` sign prefix for negatives, then
the nibbles of the absolute value, low to high, in `"0123456789abcdef"`;
zero encodes as the empty string. -/
def append_encoded (value : Int) : String :=
  if value < 0 then String.mk ('-' :: hex_digits value.natAbs value.natAbs)
  else String.mk (hex_digits value.natAbs value.natAbs)

/-- The scratch key `previous_stage` builds for one token: encoded bilou,
a space, encoded entity. -/
def ps_key (ps : prev_stage_info) : String :=
  append_encoded ps.bilou.toInt ++ " " ++ append_encoded ps.entity

/-- Per-entry gazetteer state: the base feature ids of phrases ending at
this entry, and whether the entry is a proper prefix of a longer phrase. -/
structure gazetteer_info where
  features : List Int
  prefix_of_longer : Bool
deriving DecidableEq

instance : Inhabited gazetteer_info := ⟨⟨[], false⟩⟩

/-- First-match association lookup, modelling `unordered_map::find` (keys
are unique in all states the code builds). -/
def assocFind {α : Type} : List (String × α) → String → Option α
  | [], _ => none
  | (k', v) :: rest, k => if k' = k then some v else assocFind rest k

/-- Gazetteer role constants `G = 0, U = 1, B = 2, L = 3, I = 4`. -/
def gaz_role (g i j : Nat) : Int := if g = i then 2 else if g = j then 3 else 4

/-- The unigram emissions at a matched token `i`: each stored base feature
shifted by `G * (2w+1)` and by `U * (2w+1)`, in window at `i`. -/
def gaz_unigram_calls (w : Nat) (fs : List Int) (i : Nat) : List Call :=
  fs.flatMap (fun f =>
    [window_call w i (f + 0 * (2 * (w : Int) + 1)),
     window_call w i (f + 1 * (2 * (w : Int) + 1))])

/-- The emissions for a multi-token match `[i, j]`: for each base feature
and each position `g` in `[i, j]`, the `G` shift and the positional
`B`/`L`/`I` shift, in window at `g`. -/
def gaz_role_calls (w : Nat) (fs : List Int) (i j : Nat) : List Call :=
  fs.flatMap (fun f =>
    (List.range' i (j + 1 - i)).flatMap (fun g =>
      [window_call w g (f + 0 * (2 * (w : Int) + 1)),
       window_call w g (f + gaz_role g i j * (2 * (w : Int) + 1))]))

/-- The longest-match extension loop of `gazetteers::process_sentence`:
while the current entry is a prefix of a longer phrase and `j` is inside
the sentence, extend the phrase by `" " + raw_lemma[j]`, re-look it up, and
on a hit emit the positional features for the span `[i, j]`.  Fuel-based;
the loop runs at most `size` times since `j` increases from `i + 1`. -/
def gaz_extension_calls (w : Nat) (info : List gazetteer_info) (gmap : List (String × Nat))
    (words : List ner_word) (i : Nat) : gazetteer_info → String → Nat → Nat → List Call
  | _, _, _, 0 => []
  | cur, phrase, j, fuel + 1 =>
    if cur.prefix_of_longer ∧ j < words.length then
      match assocFind gmap (phrase ++ " " ++ (words.getD j default).raw_lemma) with
      | none => []
      | some idx =>
        gaz_role_calls w (info.getD idx default).features i j ++
          gaz_extension_calls w info gmap words i (info.getD idx default)
            (phrase ++ " " ++ (words.getD j default).raw_lemma) (j + 1) fuel
    else []

/-- All calls of `gazetteers::process_sentence`. -/
def gaz_calls (w : Nat) (info : List gazetteer_info) (gmap : List (String × Nat))
    (words : List ner_word) : List Call :=
  (List.range words.length).flatMap (fun i =>
    match assocFind gmap (words.getD i default).raw_lemma with
    | none => []
    | some idx =>
      gaz_unigram_calls w (info.getD idx default).features i ++
        gaz_extension_calls w info gmap words i (info.getD idx default)
          (words.getD i default).raw_lemma (i + 1) words.length)

/-- The sealed set of feature processors, each carrying the state its
`process_sentence` reads (`CzechAddContainers` and `URLEmailDetector` touch
no feature accumulators; `Lemma` is named `lemma_feature` because `lemma`
is a Lean keyword). -/
inductive processor where
  | brown_clusters (clusters : List (List Int)) (bmap : List (String × Nat))
  | czech_add_containers
  | czech_lemma_term
  | form
  | form_capitalization
  | gazetteers (info : List gazetteer_info) (gmap : List (String × Nat))
  | lemma_feature
  | number_time_value
  | previous_stage
  | raw_lemma
  | raw_lemma_capitalization
  | tag
  | url_email_detector (url email : Int)

/-- The `apply_in_range` invocations each processor's `process_sentence`
makes, in program order. -/
def calls (env : ner_env) (w : Nat) : processor → ner_sentence → List Call
  | .brown_clusters clusters bmap, s =>
    (List.range s.size).flatMap (fun i =>
      match assocFind bmap (wordAt s i).raw_lemma with
      | none => []
      | some cid => (clusters.getD cid []).map (fun f => window_call w (i : Int) f))
  | .czech_add_containers, _ => []
  | .czech_lemma_term, s =>
    (List.range s.size).flatMap (fun i =>
      (czlt_keys (wordAt s i).lemma_comments).map (fun k => window_call w i (env.lookup k)))
  | .form, s =>
    (List.range s.size).map (fun (i : Nat) => window_call w (i : Int) (env.lookup (wordAt s i).form)) ++
      outer_calls w s.size (lookup_empty w)
  | .form_capitalization, s =>
    (List.range s.size).flatMap (fun i =>
      cap_calls_at env.cat_Lut env.cat_Ll (env.lookup "f") (env.lookup "a") (env.lookup "m")
        w i (wordAt s i).form)
  | .gazetteers info gmap, s => gaz_calls w info gmap s.words
  | .lemma_feature, s =>
    (List.range s.size).map (fun (i : Nat) => window_call w (i : Int) (env.lookup (wordAt s i).lemma_id)) ++
      outer_calls w s.size (lookup_empty w)
  | .number_time_value, s =>
    (List.range s.size).flatMap (fun i => ntv_calls_at env.lookup w i (wordAt s i).form)
  | .previous_stage, s =>
    (List.range s.size).filterMap (fun i =>
      if (prevAt s i).bilou ≠ .unknown
      then some ⟨(i : Int), env.lookup (ps_key (prevAt s i)), 1, (w : Int)⟩ else none)
  | .raw_lemma, s =>
    (List.range s.size).map (fun (i : Nat) => window_call w (i : Int) (env.lookup (wordAt s i).raw_lemma)) ++
      outer_calls w s.size (lookup_empty w)
  | .raw_lemma_capitalization, s =>
    (List.range s.size).flatMap (fun i =>
      cap_calls_at env.cat_Lut env.cat_Ll (env.lookup "f") (env.lookup "a") (env.lookup "m")
        w i (wordAt s i).raw_lemma)
  | .tag, s =>
    (List.range s.size).map (fun (i : Nat) => window_call w (i : Int) (env.lookup (wordAt s i).tag)) ++
      outer_calls w s.size (lookup_empty w)
  | .url_email_detector _ _, _ => []

/-- `process_sentence` of a processor: the fold of its emission calls over
the feature accumulators. -/
def process_sentence (env : ner_env) (w : Nat) (proc : processor) (s : ner_sentence)
    (feats : Features) : Features :=
  applyCalls (calls env w proc s) feats

/-- A predicted named entity: token start index, token count, type tag. -/
structure named_entity where
  start : Int
  length : Int
  type : String
deriving DecidableEq

instance : Inhabited named_entity := ⟨⟨0, 0, ""⟩⟩

def entAt (es : List named_entity) (i : Nat) : named_entity := es.getD i default

/-- The `while (j < entities.size() && entities[j].start == entities[j-1].start
+ entities[j-1].length && entities[j].type == ty) j++;` loops of
`czech_add_containers::process_entities`, fuel-based (the loop advances `j`
and stops at `entities.size()`, so `entities.size()` steps of fuel suffice). -/
def skip_type (es : List named_entity) (ty : String) : Nat → Nat → Nat
  | 0, j => j
  | fuel + 1, j =>
    if j < es.length ∧
        (entAt es (j - 1)).start + (entAt es (j - 1)).length = (entAt es j).start ∧
        (entAt es j).type = ty
    then skip_type es ty fuel (j + 1) else j

/-- The containers `czech_add_containers::process_entities` pushes at index
`i` before pushing the original entity: a `P` container over a maximal
abutting `pf+ ps+` run triggered at its first `pf`, a `T` container over
`td tm [ty]`, and a `T` container over `tm ty` not preceded by an abutting
`td`. -/
def containers_at (es : List named_entity) (i : Nat) : List named_entity :=
  let n := es.length
  let e := entAt es i
  (if e.type = "pf" ∧ (i = 0 ∨ (entAt es (i - 1)).start + (entAt es (i - 1)).length < e.start ∨
      (entAt es (i - 1)).type ≠ "pf") then
    let j := skip_type es "pf" n (i + 1)
    if j < n ∧ (entAt es (j - 1)).start + (entAt es (j - 1)).length = (entAt es j).start ∧
        (entAt es j).type = "ps" then
      let j2 := skip_type es "ps" n (j + 1)
      [⟨e.start, (entAt es (j2 - 1)).start + (entAt es (j2 - 1)).length - e.start, "P"⟩]
    else []
   else []) ++
  (if e.type = "td" ∧ i + 1 < n ∧ (entAt es (i + 1)).start = e.start + e.length ∧
      (entAt es (i + 1)).type = "tm" then
    let j := i + 2
    let j2 := if j < n ∧ (entAt es (j - 1)).start + (entAt es (j - 1)).length = (entAt es j).start ∧
        (entAt es j).type = "ty" then j + 1 else j
    [⟨e.start, (entAt es (j2 - 1)).start + (entAt es (j2 - 1)).length - e.start, "T"⟩]
   else []) ++
  (if e.type = "tm" ∧ (i = 0 ∨ (entAt es (i - 1)).start + (entAt es (i - 1)).length < e.start ∨
      (entAt es (i - 1)).type ≠ "td") ∧
      i + 1 < n ∧ (entAt es (i + 1)).start = e.start + e.length ∧ (entAt es (i + 1)).type = "ty" then
    [⟨e.start, (entAt es (i + 1)).start + (entAt es (i + 1)).length - e.start, "T"⟩]
   else [])

/-- `czech_add_containers::process_entities`: rebuild the list, prepending
containers before the entity at their trigger position; adopt the rebuilt
list only if it is longer (i.e. some container was added). -/
def czech_add_containers_process_entities (es : List named_entity) : List named_entity :=
  let buffer := (List.range es.length).flatMap (fun i => containers_at es i ++ [entAt es i])
  if es.length < buffer.length then buffer else es

/-- C4: on the entity list `[(0,1,pf), (1,1,pf), (2,1,ps), (5,1,td),
(6,1,tm), (7,1,ty)]`, `process_entities` yields the container `(0,3,P)`
immediately before the `pf` at start 0 and the container `(5,3,T)`
immediately before the `td` at start 5, all six originals retained in
order. -/
theorem czech_add_containers_scenario :
    czech_add_containers_process_entities
        [⟨0, 1, "pf"⟩, ⟨1, 1, "pf"⟩, ⟨2, 1, "ps"⟩, ⟨5, 1, "td"⟩, ⟨6, 1, "tm"⟩, ⟨7, 1, "ty"⟩] =
      [⟨0, 3, "P"⟩, ⟨0, 1, "pf"⟩, ⟨1, 1, "pf"⟩, ⟨2, 1, "ps"⟩,
       ⟨5, 3, "T"⟩, ⟨5, 1, "td"⟩, ⟨6, 1, "tm"⟩, ⟨7, 1, "ty"⟩] := by
  decide

/-- A token carrying only a surface form (the other fields are unused by
the processors under test). -/
def mkForm (f : String) : ner_word := ⟨f, "", "", "", ""⟩

/-- A concrete interner snapshot for the `NumericTimeValue` scenarios: the
six single-character keys `H M t d m y`, interned in the order the code
looks them up with window 2 (band centres 2, 7, 12, 17, 22, 27). -/
def ntv_env : ner_env :=
  ⟨fun s => if s = "H" then 2 else if s = "M" then 7 else if s = "t" then 12
    else if s = "d" then 17 else if s = "m" then 22 else if s = "y" then 27
    else ner_feature_unknown,
   fun c => c.isUpper, fun c => c.isLower⟩

def ntv_sentence : ner_sentence := ⟨["7", "30", "12:45", "1999", "2300", "13.70"].map mkForm, []⟩

/-- Counterexample to C5 as stated: on `["7", "30", "12:45", "1999",
"2300", "13.70"]` the claim asserts the hour feature in the window at
position 2, the day and month features at position 3, and the hour, day
and month features at position 5.  Emission of a feature in the window at
position `p` would in particular put its centre id into `features[p]`;
none of these centre ids is there: "12:45" and "13.70" are not entirely
digits (the first `if` requires the digit run to consume the whole form),
and 1999 exceeds the day bound 31 and the month bound 12. -/
theorem ntv_scenario_counterexample :
    (2 : Int) ∉ (process_sentence ntv_env 2 .number_time_value ntv_sentence
        (List.replicate 6 [])).getD 2 [] ∧
    (17 : Int) ∉ (process_sentence ntv_env 2 .number_time_value ntv_sentence
        (List.replicate 6 [])).getD 3 [] ∧
    (2 : Int) ∉ (process_sentence ntv_env 2 .number_time_value ntv_sentence
        (List.replicate 6 [])).getD 5 [] := by
  decide

/-- C5 amended: on `["7", "30", "12:45", "1999", "2300", "13.70"]` with
window 2, `NumericTimeValue` emits hour+minute+day+month in the window at
position 0, minute+day at position 1, only time at position 2, only year
at position 3, and nothing at positions 4 and 5.  (Centres: hour 2,
minute 7, time 12, day 17, month 22, year 27; the theorem pins the whole
accumulator state, shifted ids included.) -/
theorem ntv_scenario_amended :
    process_sentence ntv_env 2 .number_time_value ntv_sentence (List.replicate 6 []) =
      [[2, 7, 17, 22, 6, 16, 10],
       [3, 8, 18, 23, 7, 17, 11, 25],
       [4, 9, 19, 24, 8, 18, 12, 26],
       [9, 19, 13, 27],
       [14, 28],
       [29]] := by
  decide

/-- A concrete interner snapshot for the capitalization scenario: keys
`f a m` interned in lookup order with window 2 (centres 2, 7, 12); the
unicode category tests are the ASCII ones, sufficient for the ASCII
scenario tokens. -/
def cap_env : ner_env :=
  ⟨fun s => if s = "f" then 2 else if s = "a" then 7 else if s = "m" then 12
    else ner_feature_unknown,
   fun c => c.isUpper, fun c => c.isLower⟩

def cap_sentence : ner_sentence := ⟨["Prague", "IS", "nice", "mIxEd"].map mkForm, []⟩

/-- Counterexample to C6 as stated: the claim asserts the first-letter-
uppercase feature `f` in the window around position 3, but "mIxEd" begins
with a lowercase letter, so nothing attributable to `f` is emitted at
token 3; in particular the centre id of `f` is absent from `features[3]`. -/
theorem cap_scenario_counterexample :
    (2 : Int) ∉ (process_sentence cap_env 2 .form_capitalization cap_sentence
        (List.replicate 4 [])).getD 3 [] := by
  decide

/-- C6 amended: on `["Prague", "IS", "nice", "mIxEd"]` with window 2,
`FormCapitalization` emits `f` around positions 0 and 1 (not 3: "mIxEd"
starts lowercase), `a` around position 1, `m` around positions 0 and 3
("Prague" mixes upper and lower case, so it gets `m` besides `f`), and no
capitalization feature around position 2.  (Centres: `f` 2, `a` 7, `m` 12.) -/
theorem cap_scenario_amended :
    process_sentence cap_env 2 .form_capitalization cap_sentence (List.replicate 4 []) =
      [[2, 12, 1, 6],
       [3, 13, 2, 7, 10],
       [4, 14, 3, 8, 11],
       [4, 9, 12]] := by
  decide

def wrap_sentence : ner_sentence := ⟨["4294967296"].map mkForm, []⟩

/-- C10: the digit-run accumulator of `NumericTimeValue` is a 32-bit
unsigned integer wrapping modulo `2^32`.  The all-digit token
"4294967296" has mathematical value `2^32`, above every table bound, yet
it wraps to 0, so the hour and minute features (centres 2 and 7) are
emitted in the window at the token regardless. -/
theorem ntv_wraparound :
    decimalValue "4294967296".data = 4294967296 ∧
    24 ≤ decimalValue "4294967296".data ∧ 60 ≤ decimalValue "4294967296".data ∧
    31 < decimalValue "4294967296".data ∧ 12 < decimalValue "4294967296".data ∧
    2200 < decimalValue "4294967296".data ∧
    accumNum "4294967296".data = 0 ∧
    process_sentence ntv_env 2 .number_time_value wrap_sentence [[]] = [[2, 7]] := by
  decide

/-- C7: `PreviousStage` is forward-only.  At every position `p`, what
`process_sentence` appends beyond the prior accumulator content comes only
from tokens `i` with known bilou and `i + 1 ≤ p ≤ i + w` — never from a
token at or to the right of `p`, and never from a token with unknown
bilou; conversely, every token `i` with known bilou whose looked-up
feature is not the unknown sentinel does emit its encoded feature at every
`p` in `[i+1, min(size-1, i+w)]`. -/
theorem previous_stage_forward_only (env : ner_env) (w : Nat) (s : ner_sentence)
    (feats : Features) (hlen : feats.length = s.size) (p : Nat) (hp : p < s.size) :
    ∃ extra,
      (process_sentence env w .previous_stage s feats).getD p [] = feats.getD p [] ++ extra ∧
      (∀ id ∈ extra, ∃ i : Nat, i < s.size ∧ (prevAt s i).bilou ≠ .unknown ∧
        (i : Int) + 1 ≤ (p : Int) ∧ (p : Int) ≤ (i : Int) + (w : Int) ∧
        id = env.lookup (ps_key (prevAt s i)) + ((p : Int) - (i : Int))) ∧
      (∀ i : Nat, i < s.size → (prevAt s i).bilou ≠ .unknown →
        env.lookup (ps_key (prevAt s i)) ≠ ner_feature_unknown →
        (i : Int) + 1 ≤ (p : Int) → (p : Int) ≤ min ((s.size : Int) - 1) ((i : Int) + (w : Int)) →
        env.lookup (ps_key (prevAt s i)) + ((p : Int) - (i : Int)) ∈ extra) := by
  refine ⟨(calls env w .previous_stage s).flatMap (fun c => callAppend c p), ?_, ?_, ?_⟩
  · exact applyCalls_getD _ feats p (hlen ▸ hp)
  · intro id hid
    rw [List.mem_flatMap] at hid
    obtain ⟨c, hc, hidc⟩ := hid
    simp only [calls, List.mem_filterMap, List.mem_range] at hc
    obtain ⟨i, hi, hci⟩ := hc
    by_cases hb : (prevAt s i).bilou ≠ bilou_type.unknown
    · rw [if_pos hb] at hci
      obtain rfl : Call.mk (i : Int) (env.lookup (ps_key (prevAt s i))) 1 (w : Int) = c :=
        Option.some.inj hci
      unfold callAppend at hidc
      split at hidc
      · next h =>
        obtain ⟨rfl⟩ : id = env.lookup (ps_key (prevAt s i)) + (p : Int) - (i : Int) := by
          simpa using hidc
        exact ⟨i, hi, hb, h.2.1, h.2.2, by ring⟩
      · simp at hidc
    · rw [if_neg hb] at hci
      exact absurd hci (by simp)
  · intro i hi hb hf h1 h2
    rw [List.mem_flatMap]
    refine ⟨⟨(i : Int), env.lookup (ps_key (prevAt s i)), 1, (w : Int)⟩, ?_, ?_⟩
    · simp only [calls, List.mem_filterMap, List.mem_range]
      exact ⟨i, hi, by rw [if_pos hb]⟩
    · unfold callAppend
      rw [if_pos ⟨hf, h1, (le_min_iff.mp h2).2⟩]
      simp only [List.mem_singleton]
      ring

def ps_env : ner_env := ⟨fun _ => 10, fun c => c.isUpper, fun c => c.isLower⟩

/-- A size-5 sentence whose only known previous-stage annotation is
`(B, entity 3)` at position 2 — scenario 6 of the spec. -/
def ps_sentence : ner_sentence :=
  ⟨List.replicate 5 (mkForm "x"),
   [⟨.unknown, -1⟩, ⟨.unknown, -1⟩, ⟨.B, 3⟩, ⟨.unknown, -1⟩, ⟨.unknown, -1⟩]⟩

/-- Witness of C7 at the spec's scenario: window 2, known previous stage
only at token 2, observed at position 3. -/
theorem previous_stage_forward_only_witness :
    ∃ extra,
      (process_sentence ps_env 2 .previous_stage ps_sentence
          (List.replicate 5 [])).getD 3 [] = (List.replicate 5 ([] : List Int)).getD 3 [] ++ extra ∧
      (∀ id ∈ extra, ∃ i : Nat, i < ps_sentence.size ∧ (prevAt ps_sentence i).bilou ≠ .unknown ∧
        (i : Int) + 1 ≤ ((3 : Nat) : Int) ∧ ((3 : Nat) : Int) ≤ (i : Int) + ((2 : Nat) : Int) ∧
        id = ps_env.lookup (ps_key (prevAt ps_sentence i)) + (((3 : Nat) : Int) - (i : Int))) ∧
      (∀ i : Nat, i < ps_sentence.size → (prevAt ps_sentence i).bilou ≠ .unknown →
        ps_env.lookup (ps_key (prevAt ps_sentence i)) ≠ ner_feature_unknown →
        (i : Int) + 1 ≤ ((3 : Nat) : Int) →
        ((3 : Nat) : Int) ≤ min ((ps_sentence.size : Int) - 1) ((i : Int) + ((2 : Nat) : Int)) →
        ps_env.lookup (ps_key (prevAt ps_sentence i)) + (((3 : Nat) : Int) - (i : Int)) ∈ extra) :=
  previous_stage_forward_only ps_env 2 ps_sentence (List.replicate 5 []) (by decide) 3 (by decide)

/-- Modelled from the spec: the classification returned by the external
`url_detector::detect`. -/
inductive url_kind where
  | NO_URL
  | URL
  | EMAIL
deriving DecidableEq

/-- One local BILOU probability slot `{probability, entity}`; the f64
probability is modelled as a rational (the code only ever stores the exact
constants 0 and 1 into it). -/
structure bilou_slot where
  probability : ℚ
  entity : Int
deriving DecidableEq

/-- The five-slot local BILOU probability record `local.bilou[5]` (`loc`
models the C++ field `local`, a Lean keyword). -/
structure local_probs where
  bilouB : bilou_slot
  bilouI : bilou_slot
  bilouL : bilou_slot
  bilouO : bilou_slot
  bilouU : bilou_slot
deriving DecidableEq

structure token_probabilities where
  loc : local_probs
  local_filled : Bool
deriving DecidableEq

instance : Inhabited token_probabilities :=
  ⟨⟨⟨⟨0, entity_type_unknown⟩, ⟨0, entity_type_unknown⟩, ⟨0, entity_type_unknown⟩,
     ⟨0, entity_type_unknown⟩, ⟨0, entity_type_unknown⟩⟩, false⟩⟩

/-- The record `url_email_detector::process_sentence` writes on a hit:
all five slots zeroed with unknown entity, then slot `U` overwritten with
probability 1 and the registered email or url entity type, and
`local_filled` set. -/
def url_email_hit (url email : Int) (t : url_kind) : token_probabilities :=
  { loc := { bilouB := ⟨0, entity_type_unknown⟩, bilouI := ⟨0, entity_type_unknown⟩,
             bilouL := ⟨0, entity_type_unknown⟩, bilouO := ⟨0, entity_type_unknown⟩,
             bilouU := ⟨1, if t = .EMAIL then email else url⟩ },
    local_filled := true }

/-- `url_email_detector::process_sentence` restricted to its only effect,
the per-token probability slots: a token is rewritten exactly when the
external detector reports URL or EMAIL and its slot is not yet filled. -/
def url_email_process (detect : String → url_kind) (url email : Int)
    (words : List ner_word) (probs : List token_probabilities) : List token_probabilities :=
  (words.zip probs).map (fun wp =>
    if detect wp.1.form = .NO_URL ∨ wp.2.local_filled then wp.2
    else url_email_hit url email (detect wp.1.form))

theorem url_email_process_getD (detect : String → url_kind) (url email : Int) :
    ∀ (words : List ner_word) (probs : List token_probabilities),
      words.length = probs.length → ∀ i : Nat, i < words.length →
      (url_email_process detect url email words probs).getD i default =
        (if detect (words.getD i default).form = .NO_URL ∨
            (probs.getD i default).local_filled
         then probs.getD i default
         else url_email_hit url email (detect (words.getD i default).form)) := by
  intro words
  induction words with
  | nil => intro probs _ i hi; simp at hi
  | cons wd ws ih =>
    intro probs hlen i hi
    cases probs with
    | nil => simp at hlen
    | cons pr ps =>
      cases i with
      | zero => simp [url_email_process, List.zip_cons_cons]
      | succ i =>
        have hlen' : ws.length = ps.length := by simpa using hlen
        have hi' : i < ws.length := by simpa using hi
        have := ih ps hlen' i hi'
        simpa [url_email_process, List.zip_cons_cons] using this

/-- C9: `URLEmailDetector` writes `probabilities[i]` iff the external
detector classifies `form[i]` as URL or EMAIL and `local_filled[i]` is
false; on a hit it stores the zeroed record with slot `U` set to
probability 1 and the registered url/email entity type and `local_filled`
true; every other token's slot is returned unchanged, the length of the
probability array is preserved, and the feature accumulators are untouched
(the processor emits no feature calls). -/
theorem url_email_detector_spec (detect : String → url_kind) (url email : Int)
    (words : List ner_word) (probs : List token_probabilities)
    (hlen : words.length = probs.length) (i : Nat) (hi : i < words.length) :
    (detect (words.getD i default).form ≠ .NO_URL →
       (probs.getD i default).local_filled = false →
       (url_email_process detect url email words probs).getD i default =
         url_email_hit url email (detect (words.getD i default).form)) ∧
    (detect (words.getD i default).form = .NO_URL ∨
       (probs.getD i default).local_filled = true →
       (url_email_process detect url email words probs).getD i default =
         probs.getD i default) ∧
    (url_email_process detect url email words probs).length = probs.length ∧
    (∀ (env : ner_env) (w : Nat) (s : ner_sentence) (feats : Features),
       process_sentence env w (.url_email_detector url email) s feats = feats) := by
  refine ⟨?_, ?_, ?_, ?_⟩
  · intro hd hf
    rw [url_email_process_getD detect url email words probs hlen i hi]
    rw [if_neg (by rw [not_or]; exact ⟨hd, by rw [hf]; exact Bool.false_ne_true⟩)]
  · intro h
    rw [url_email_process_getD detect url email words probs hlen i hi]
    rcases h with h | h
    · rw [if_pos (Or.inl h)]
    · rw [if_pos (Or.inr h)]
  · unfold url_email_process
    rw [List.length_map, List.length_zip, hlen, min_self]
  · intro env w s feats
    rfl

def ue_detect : String → url_kind := fun s => if s = "x@y.z" then .EMAIL else .NO_URL

def ue_words : List ner_word := ["hello", "x@y.z", "world"].map mkForm

/-- Witness of C9 on the spec's scenario `["hello", "x@y.z", "world"]` at
position 1 with a detector classifying `x@y.z` as EMAIL. -/
theorem url_email_detector_spec_witness :
    (ue_detect (ue_words.getD 1 default).form ≠ .NO_URL →
       ((List.replicate 3 (default : token_probabilities)).getD 1 default).local_filled = false →
       (url_email_process ue_detect 7 8 ue_words
           (List.replicate 3 default)).getD 1 default =
         url_email_hit 7 8 (ue_detect (ue_words.getD 1 default).form)) ∧
    (ue_detect (ue_words.getD 1 default).form = .NO_URL ∨
       ((List.replicate 3 (default : token_probabilities)).getD 1 default).local_filled = true →
       (url_email_process ue_detect 7 8 ue_words
           (List.replicate 3 default)).getD 1 default =
         (List.replicate 3 (default : token_probabilities)).getD 1 default) ∧
    (url_email_process ue_detect 7 8 ue_words (List.replicate 3 default)).length =
      (List.replicate 3 (default : token_probabilities)).length ∧
    (∀ (env : ner_env) (w : Nat) (s : ner_sentence) (feats : Features),
       process_sentence env w (.url_email_detector 7 8) s feats = feats) :=
  url_email_detector_spec ue_detect 7 8 ue_words (List.replicate 3 default) (by decide) 1 (by decide)

/-- `utils/split`: split a character list at every occurrence of the
delimiter; `n` delimiters yield `n + 1` (possibly empty) pieces. -/
def splitChars (delim : Char) : List Char → List (List Char)
  | [] => [[]]
  | c :: cs =>
    if c = delim then [] :: splitChars delim cs
    else
      match splitChars delim cs with
      | [] => [[c]]
      | t :: ts => (c :: t) :: ts

def strSplit (delim : Char) (s : String) : List String :=
  (splitChars delim s.data).map (fun cs => String.mk cs)

/-- The tokens of one gazetteer line: split on spaces, then erase the
empty tokens (the `if (!tokens[i][0]) tokens.erase(...)` loop). -/
def gaz_tokens (line : String) : List String :=
  (strSplit ' ' line).filter (fun t => t ≠ "")

/-- The training-time state `gazetteers::parse` builds: the phrase map and
the per-entry info records. -/
structure gaz_state where
  gmap : List (String × Nat)
  info : List gazetteer_info
deriving DecidableEq

/-- The per-prefix update: a non-terminal prefix gets `prefix_of_longer`
set; the full phrase appends the file's base feature id unless already
present. -/
def update_info (info : List gazetteer_info) (idx : Nat) (isLast : Bool)
    (basefeat : Int) : List gazetteer_info :=
  let e := info.getD idx default
  let e' :=
    if isLast then
      (if basefeat ∈ e.features then e else { e with features := e.features ++ [basefeat] })
    else { e with prefix_of_longer := true }
  info.set idx e'

/-- One `map.emplace(gazetteer, gazetteers_info.size())` step plus the info
update: a fresh phrase is appended to the map with a fresh info record. -/
def gaz_step (basefeat : Int) (st : gaz_state) (phrase : String) (isLast : Bool) : gaz_state :=
  match assocFind st.gmap phrase with
  | some idx => { st with info := update_info st.info idx isLast basefeat }
  | none =>
    { gmap := st.gmap ++ [(phrase, st.info.length)],
      info := update_info (st.info ++ [default]) st.info.length isLast basefeat }

/-- The incremental-prefix loop over one line's tokens: `p1`, `p1 p2`, …;
the accumulator carries the phrase built so far. -/
def gaz_prefix_loop (basefeat : Int) : gaz_state → String → Bool → List String → gaz_state
  | st, _, _, [] => st
  | st, acc, first, t :: rest =>
    let phrase := if first then t else acc ++ " " ++ t
    gaz_prefix_loop basefeat (gaz_step basefeat st phrase rest.isEmpty) phrase false rest

/-- One line of `gazetteers::parse`: update `longest` with the token count,
then intern the line's prefixes (the base feature id of the whole file is
`*total_features + window`, constant until the end-of-file bump). -/
def gaz_line_step (w : Nat) (total0 : Int) (st : gaz_state × Nat) (line : String) :
    gaz_state × Nat :=
  let tokens := gaz_tokens line
  let longest := if tokens.length > st.2 then tokens.length else st.2
  (gaz_prefix_loop (total0 + (w : Int)) st.1 "" true tokens, longest)

/-- `gazetteers::parse` over one gazetteer file: process each line, then
bump `*total_features` by `(2w+1)` times `0` (no phrase), `U+1 = 2`
(longest 1), `L+1 = 4` (longest 2) or `I+1 = 5` (longest ≥ 3).  Returns the
final state and the new `*total_features`. -/
def gaz_parse_file (w : Nat) (lines : List String) (st0 : gaz_state) (total0 : Int) :
    gaz_state × Int :=
  let out := lines.foldl (gaz_line_step w total0) (st0, 0)
  (out.1, total0 + (2 * (w : Int) + 1) *
    (if out.2 = 0 then 0 else if out.2 = 1 then 2 else if out.2 = 2 then 4 else 5))

/-- The length of the longest phrase of the file, empty tokens dropped —
the claim's measure. -/
def longest_phrase (lines : List String) : Nat :=
  lines.foldl (fun m l => max m (gaz_tokens l).length) 0

/-- The claim's slot count: 0 slots for a file with no phrase, 2 (G, U) if
the longest phrase has one token, 4 (G, U, B, L) for two, 5 (G, U, B, L, I)
for three or more. -/
def gaz_slots : Nat → Nat
  | 0 => 0
  | 1 => 2
  | 2 => 4
  | _ + 3 => 5

theorem gaz_parse_longest (w : Nat) (total0 : Int) :
    ∀ (lines : List String) (st : gaz_state) (a : Nat),
      (lines.foldl (gaz_line_step w total0) (st, a)).2 =
        lines.foldl (fun m l => max m (gaz_tokens l).length) a := by
  intro lines
  induction lines with
  | nil => intro st a; rfl
  | cons line rest ih =>
    intro st a
    show (rest.foldl (gaz_line_step w total0) (gaz_line_step w total0 (st, a) line)).2 = _
    have hmax : (gaz_line_step w total0 (st, a) line).2 = max a (gaz_tokens line).length := by
      show (if (gaz_tokens line).length > a then (gaz_tokens line).length else a) = _
      rcases Nat.lt_or_ge a (gaz_tokens line).length with h | h
      · rw [if_pos h, Nat.max_eq_right (Nat.le_of_lt h)]
      · rw [if_neg (by omega), Nat.max_eq_left h]
    have : gaz_line_step w total0 (st, a) line =
        ((gaz_line_step w total0 (st, a) line).1, max a (gaz_tokens line).length) := by
      rw [← hmax]
    rw [this, ih]
    rfl

/-- C3: for every gazetteer file, `gazetteers::parse` increments
`total_features` by exactly `(2w+1)` times the slot count of the longest
phrase after dropping empty tokens: 0 slots when the file has no phrase,
2 when the longest has one token, 4 for two tokens, 5 for three or more. -/
theorem gazetteers_parse_total_features (w : Nat) (lines : List String)
    (st0 : gaz_state) (total0 : Int) :
    (gaz_parse_file w lines st0 total0).2 =
      total0 + (2 * (w : Int) + 1) * (gaz_slots (longest_phrase lines) : Int) := by
  show total0 + (2 * (w : Int) + 1) * _ = _
  rw [gaz_parse_longest w total0 lines st0 0]
  have : lines.foldl (fun m l => max m (gaz_tokens l).length) 0 = longest_phrase lines := rfl
  rw [this]
  rcases longest_phrase lines with _ | _ | _ | n <;> simp [gaz_slots]

/-- `cluster.substr(0, n)` (character-level model). -/
def strTake (s : String) (n : Nat) : String := String.mk (s.data.take n)

/-- The training-time state of `brown_clusters::parse`: the per-cluster
feature lists, the `cluster_bits → cluster id` map, the local
`prefix → base feature id` map, and the inherited `form → cluster id`
map. -/
structure brown_state where
  clusters : List (List Int)
  cluster_map : List (String × Nat)
  prefixes_map : List (String × Int)
  bmap : List (String × Nat)
deriving DecidableEq

/-- The guard `substring == string::npos || substring < cluster.size()`:
a requested prefix length at or beyond the cluster string length is
skipped, except for the implicit full-string sentinel (`none`). -/
def brown_sub_ok (cluster : String) : Option Nat → Bool
  | none => true
  | some n => n < cluster.data.length

def brown_sub_key (cluster : String) : Option Nat → String
  | none => cluster
  | some n => strTake cluster n

/-- The per-cluster substring loop: intern each admissible prefix into
`prefixes_map` (a fresh prefix gets the centre
`*total_features + (2w+1) * |prefixes_map| + w` of the next reserved band)
and append the interned id to the cluster's feature list. -/
def brown_add_substrings (w : Nat) (total0 : Int) (cluster : String) :
    List (Option Nat) → List Int → List (String × Int) → List Int × List (String × Int)
  | [], feats, pmap => (feats, pmap)
  | sub :: rest, feats, pmap =>
    if brown_sub_ok cluster sub then
      match assocFind pmap (brown_sub_key cluster sub) with
      | some v => brown_add_substrings w total0 cluster rest (feats ++ [v]) pmap
      | none =>
        let v := total0 + (2 * (w : Int) + 1) * (pmap.length : Int) + (w : Int)
        brown_add_substrings w total0 cluster rest (feats ++ [v])
          (pmap ++ [(brown_sub_key cluster sub, v)])
    else brown_add_substrings w total0 cluster rest feats pmap

/-- One line `<cluster_bits>\t<form>` of the Brown cluster file: a line
that does not split into exactly two fields is an error; a fresh
`cluster_bits` allocates a new cluster id and its prefix features; a
duplicate `form` is an error. -/
def brown_process_line (w : Nat) (total0 : Int) (substrings : List (Option Nat))
    (st : brown_state) (line : String) : Option brown_state :=
  match strSplit '\t' line with
  | [cluster, form] =>
    let next :=
      match assocFind st.cluster_map cluster with
      | some cid => (st, cid)
      | none =>
        let out := brown_add_substrings w total0 cluster substrings [] st.prefixes_map
        (⟨st.clusters ++ [out.1], st.cluster_map ++ [(cluster, st.clusters.length)],
          out.2, st.bmap⟩, st.clusters.length)
    match assocFind next.1.bmap form with
    | some _ => none
    | none => some { next.1 with bmap := next.1.bmap ++ [(form, next.2)] }
  | _ => none

def brown_parse_lines (w : Nat) (total0 : Int) (substrings : List (Option Nat)) :
    brown_state → List String → Option brown_state
  | st, [] => some st
  | st, line :: rest =>
    match brown_process_line w total0 substrings st line with
    | none => none
    | some st' => brown_parse_lines w total0 substrings st' rest

/-- `brown_clusters::parse` with the file already read into lines: the
substring list is the implicit full-string sentinel followed by the
requested prefix lengths; after the file, `*total_features` grows by
`(2w+1) * |prefixes_map|`. -/
def brown_parse (w : Nat) (total0 : Int) (prefix_lengths : List Nat) (lines : List String)
    (bmap0 : List (String × Nat)) : Option (brown_state × Int) :=
  match brown_parse_lines w total0 (none :: prefix_lengths.map some) ⟨[], [], [], bmap0⟩ lines with
  | none => none
  | some st => some (st, total0 + (2 * (w : Int) + 1) * (st.prefixes_map.length : Int))

/-- C8: parsing the cluster file line `110100<TAB>bank` with requested
prefix lengths `[4, 6]` plus the implicit full-string entry (window 2,
fresh state) interns exactly two prefix features — "1101" (centre 7) and
the full string "110100" (centre 2); the explicit 6-prefix is skipped
because it does not satisfy `substring < cluster.size()`.  And
`process_sentence` over the resulting state emits both cluster features in
the window at every token whose `raw_lemma` is "bank". -/
theorem brown_clusters_scenario :
    brown_parse 2 0 [4, 6] ["110100\tbank"] [] =
      some (⟨[[2, 7]], [("110100", 0)], [("110100", 2), ("1101", 7)], [("bank", 0)]⟩, 10) ∧
    ∀ (env : ner_env) (s : ner_sentence) (feats : Features), feats.length = s.size →
      ∀ i p : Nat, i < s.size → p < s.size → (wordAt s i).raw_lemma = "bank" →
      (i : Int) - 2 ≤ (p : Int) → (p : Int) ≤ (i : Int) + 2 →
      (2 + ((p : Int) - (i : Int))) ∈
        (process_sentence env 2 (.brown_clusters [[2, 7]] [("bank", 0)]) s feats).getD p [] ∧
      (7 + ((p : Int) - (i : Int))) ∈
        (process_sentence env 2 (.brown_clusters [[2, 7]] [("bank", 0)]) s feats).getD p [] := by
  constructor
  · decide
  · intro env s feats hf i p hi hp hraw hlo hhi
    have hlen : p < feats.length := by rw [hf]; exact hp
    have hcall : ∀ f : Int, f ∈ ([2, 7] : List Int) →
        window_call 2 (i : Int) f ∈ calls env 2 (.brown_clusters [[2, 7]] [("bank", 0)]) s := by
      intro f hfm
      show _ ∈ (List.range s.size).flatMap _
      rw [List.mem_flatMap]
      refine ⟨i, List.mem_range.mpr hi, ?_⟩
      rw [hraw]
      show window_call 2 (i : Int) f ∈ [window_call 2 (i : Int) 2, window_call 2 (i : Int) 7]
      have hf2 : f = 2 ∨ f = 7 := by simpa using hfm
      rcases hf2 with h | h
      · rw [h]; exact List.mem_cons_self _ _
      · rw [h]; exact List.mem_cons_of_mem _ (List.mem_cons_self _ _)
    have hmem : ∀ f : Int, f ∈ ([2, 7] : List Int) →
        (f + ((p : Int) - (i : Int))) ∈
          (process_sentence env 2 (.brown_clusters [[2, 7]] [("bank", 0)]) s feats).getD p [] := by
      intro f hfm
      rw [process_sentence, applyCalls_getD _ feats p hlen]
      apply List.mem_append_right
      rw [List.mem_flatMap]
      refine ⟨window_call 2 (i : Int) f, hcall f hfm, ?_⟩
      have h1 : (i : Int) + -((2 : Nat) : Int) ≤ (p : Int) := by omega
      have h2 : (p : Int) ≤ (i : Int) + ((2 : Nat) : Int) := by omega
      have hf2 : f = 2 ∨ f = 7 := by simpa using hfm
      rcases hf2 with h | h <;> subst h <;>
        simp [callAppend, window_call, ner_feature_unknown, h1, h2] <;>
        exact ⟨⟨by omega, by omega⟩, by ring⟩
    exact ⟨hmem 2 (by decide), hmem 7 (by decide)⟩

/-- The five reserved band centres of one gazetteer base feature: the `G`,
`U`, `B`, `L` and `I` role shifts by multiples of `2w+1` (the gazetteer
parse reserves that many consecutive bands per file). -/
def gaz_band_centers (w : Nat) (f : Int) : List Int :=
  [f + 0 * (2 * (w : Int) + 1), f + 1 * (2 * (w : Int) + 1), f + 2 * (2 * (w : Int) + 1),
   f + 3 * (2 * (w : Int) + 1), f + 4 * (2 * (w : Int) + 1)]

/-- The band-centre ids a processor can emit around: the looked-up centre
of each key it consults (plus the reserved empty-string sentinel band for
the processors with outer-window emission), the stored cluster features for
`BrownClusters`, and the role-shifted centres of the stored base features
for `Gazetteers`. -/
def centersOf (env : ner_env) (w : Nat) : processor → ner_sentence → List Int
  | .brown_clusters clusters _, _ => clusters.flatten
  | .czech_add_containers, _ => []
  | .czech_lemma_term, s =>
    s.words.flatMap (fun wd => (czlt_keys wd.lemma_comments).map env.lookup)
  | .form, s => s.words.map (fun wd => env.lookup wd.form) ++ [lookup_empty w]
  | .form_capitalization, _ => [env.lookup "f", env.lookup "a", env.lookup "m"]
  | .gazetteers info _, _ =>
    (info.flatMap (fun e => e.features)).flatMap (gaz_band_centers w)
  | .lemma_feature, s => s.words.map (fun wd => env.lookup wd.lemma_id) ++ [lookup_empty w]
  | .number_time_value, _ =>
    [env.lookup "H", env.lookup "M", env.lookup "t", env.lookup "d", env.lookup "m",
     env.lookup "y"]
  | .previous_stage, s => s.previous_stage.map (fun ps => env.lookup (ps_key ps))
  | .raw_lemma, s => s.words.map (fun wd => env.lookup wd.raw_lemma) ++ [lookup_empty w]
  | .raw_lemma_capitalization, _ => [env.lookup "f", env.lookup "a", env.lookup "m"]
  | .tag, s => s.words.map (fun wd => env.lookup wd.tag) ++ [lookup_empty w]
  | .url_email_detector _ _, _ => []

theorem mem_ite_list {α : Type} {P : Prop} [Decidable P] {l : List α} {x : α}
    (h : x ∈ (if P then l else [])) : x ∈ l := by
  split at h
  · exact h
  · exact absurd h (List.not_mem_nil x)

theorem wordAt_mem (s : ner_sentence) (i : Nat) (hi : i < s.size) : wordAt s i ∈ s.words := by
  unfold wordAt
  rw [List.getD_eq_getElem s.words default hi]
  exact List.getElem_mem hi

theorem mem_outer_calls (w size : Nat) (f : Int) (c : Call) (hc : c ∈ outer_calls w size f) :
    c.f = f ∧ c.lo = -(w : Int) ∧ c.hi = (w : Int) := by
  unfold outer_calls at hc
  split at hc
  · exact absurd hc (List.not_mem_nil c)
  · rw [List.mem_flatMap] at hc
    obtain ⟨k, _, hk⟩ := hc
    have : c = window_call w (-((k : Int) + 1)) f ∨
        c = window_call w ((size : Int) - 1 + ((k : Int) + 1)) f := by simpa using hk
    rcases this with h | h <;> subst h <;> exact ⟨rfl, rfl, rfl⟩

/-- The shared call shape of the four plain lookup processors (`Form`,
`Lemma`, `RawLemma`, `Tag`): one in-window call per token on the looked-up
field, plus the outer-words calls on the empty-string sentinel. -/
theorem lookup_outer_calls_spec (env : ner_env) (w : Nat) (s : ner_sentence)
    (key : ner_word → String) (c : Call)
    (hc : c ∈ (List.range s.size).map
        (fun (i : Nat) => window_call w (i : Int) (env.lookup (key (wordAt s i)))) ++
      outer_calls w s.size (lookup_empty w)) :
    c.f ∈ s.words.map (fun wd => env.lookup (key wd)) ++ [lookup_empty w] ∧
      -(w : Int) ≤ c.lo ∧ c.hi ≤ (w : Int) := by
  rcases List.mem_append.mp hc with h | h
  · rw [List.mem_map] at h
    obtain ⟨i, hi, rfl⟩ := h
    refine ⟨List.mem_append_left _ ?_, le_refl _, le_refl _⟩
    exact List.mem_map.mpr ⟨wordAt s i, wordAt_mem s i (List.mem_range.mp hi), rfl⟩
  · obtain ⟨hf, hlo, hhi⟩ := mem_outer_calls w s.size (lookup_empty w) c h
    refine ⟨List.mem_append_right _ (by rw [hf]; exact List.mem_singleton.mpr rfl), ?_, ?_⟩
    · rw [hlo]
    · rw [hhi]

theorem cap_calls_at_spec (catU catL : Char → Bool) (fc ac mc : Int) (w i : Nat) (s : String)
    (c : Call) (hc : c ∈ cap_calls_at catU catL fc ac mc w i s) :
    ∃ f ∈ ([fc, ac, mc] : List Int), c = window_call w (i : Int) f := by
  simp only [cap_calls_at] at hc
  rcases List.mem_append.mp hc with h | hm
  · rcases List.mem_append.mp h with hf | ha
    · exact ⟨fc, by simp, List.mem_singleton.mp (mem_ite_list hf)⟩
    · exact ⟨ac, by simp, List.mem_singleton.mp (mem_ite_list ha)⟩
  · exact ⟨mc, by simp, List.mem_singleton.mp (mem_ite_list hm)⟩

theorem ntv_calls_at_spec (lookup : String → Int) (w i : Nat) (s : String) (c : Call)
    (hc : c ∈ ntv_calls_at lookup w i s) :
    ∃ k ∈ (["H", "M", "d", "m", "y", "t"] : List String),
      c = window_call w (i : Int) (lookup k) := by
  simp only [ntv_calls_at] at hc
  rcases List.mem_append.mp hc with h | ht
  · have h := mem_ite_list h
    rcases List.mem_append.mp h with h | hy
    · rcases List.mem_append.mp h with h | hm
      · rcases List.mem_append.mp h with h | hd
        · rcases List.mem_append.mp h with hH | hM
          · exact ⟨"H", by simp, List.mem_singleton.mp (mem_ite_list hH)⟩
          · exact ⟨"M", by simp, List.mem_singleton.mp (mem_ite_list hM)⟩
        · exact ⟨"d", by simp, List.mem_singleton.mp (mem_ite_list hd)⟩
      · exact ⟨"m", by simp, List.mem_singleton.mp (mem_ite_list hm)⟩
    · exact ⟨"y", by simp, List.mem_singleton.mp (mem_ite_list hy)⟩
  · exact ⟨"t", by simp, List.mem_singleton.mp (mem_ite_list (mem_ite_list ht))⟩

theorem features_getD_mem (info : List gazetteer_info) (idx : Nat) (x : Int)
    (hx : x ∈ (info.getD idx default).features) : x ∈ info.flatMap (fun e => e.features) := by
  by_cases hi : idx < info.length
  · rw [List.getD_eq_getElem info default hi] at hx
    exact List.mem_flatMap.mpr ⟨info[idx], List.getElem_mem hi, hx⟩
  · rw [List.getD_eq_default info default (by omega)] at hx
    exact absurd hx (List.not_mem_nil x)

theorem clusters_getD_mem (clusters : List (List Int)) (idx : Nat) (x : Int)
    (hx : x ∈ clusters.getD idx []) : x ∈ clusters.flatten := by
  by_cases hi : idx < clusters.length
  · rw [List.getD_eq_getElem clusters [] hi] at hx
    exact List.mem_flatten.mpr ⟨clusters[idx], List.getElem_mem hi, hx⟩
  · rw [List.getD_eq_default clusters [] (by omega)] at hx
    exact absurd hx (List.not_mem_nil x)

theorem gaz_unigram_calls_spec (w : Nat) (fs : List Int) (i : Nat) (c : Call)
    (hc : c ∈ gaz_unigram_calls w fs i) :
    ∃ f ∈ fs, ∃ r : Int, (r = 0 ∨ r = 1 ∨ r = 2 ∨ r = 3 ∨ r = 4) ∧
      ∃ g : Nat, c = window_call w (g : Int) (f + r * (2 * (w : Int) + 1)) := by
  unfold gaz_unigram_calls at hc
  rw [List.mem_flatMap] at hc
  obtain ⟨f, hf, hcf⟩ := hc
  have : c = window_call w (i : Int) (f + 0 * (2 * (w : Int) + 1)) ∨
      c = window_call w (i : Int) (f + 1 * (2 * (w : Int) + 1)) := by simpa using hcf
  rcases this with h | h
  · exact ⟨f, hf, 0, Or.inl rfl, i, h⟩
  · exact ⟨f, hf, 1, Or.inr (Or.inl rfl), i, h⟩

theorem gaz_role_calls_spec (w : Nat) (fs : List Int) (i j : Nat) (c : Call)
    (hc : c ∈ gaz_role_calls w fs i j) :
    ∃ f ∈ fs, ∃ r : Int, (r = 0 ∨ r = 1 ∨ r = 2 ∨ r = 3 ∨ r = 4) ∧
      ∃ g : Nat, c = window_call w (g : Int) (f + r * (2 * (w : Int) + 1)) := by
  unfold gaz_role_calls at hc
  rw [List.mem_flatMap] at hc
  obtain ⟨f, hf, hc⟩ := hc
  rw [List.mem_flatMap] at hc
  obtain ⟨g, _, hc⟩ := hc
  have hor : c = window_call w (g : Int) (f + 0 * (2 * (w : Int) + 1)) ∨
      c = window_call w (g : Int) (f + gaz_role g i j * (2 * (w : Int) + 1)) := by simpa using hc
  rcases hor with h | h
  · exact ⟨f, hf, 0, Or.inl rfl, g, h⟩
  · have hr : gaz_role g i j = 2 ∨ gaz_role g i j = 3 ∨ gaz_role g i j = 4 := by
      unfold gaz_role
      by_cases h1 : g = i
      · rw [if_pos h1]; exact Or.inl rfl
      · rw [if_neg h1]
        by_cases h2 : g = j
        · rw [if_pos h2]; exact Or.inr (Or.inl rfl)
        · rw [if_neg h2]; exact Or.inr (Or.inr rfl)
    refine ⟨f, hf, gaz_role g i j, ?_, g, h⟩
    rcases hr with h' | h' | h' <;> rw [h']
    · exact Or.inr (Or.inr (Or.inl rfl))
    · exact Or.inr (Or.inr (Or.inr (Or.inl rfl)))
    · exact Or.inr (Or.inr (Or.inr (Or.inr rfl)))

theorem gaz_extension_calls_spec (w : Nat) (info : List gazetteer_info)
    (gmap : List (String × Nat)) (words : List ner_word) (i : Nat) :
    ∀ (fuel : Nat) (cur : gazetteer_info) (phrase : String) (j : Nat) (c : Call),
      c ∈ gaz_extension_calls w info gmap words i cur phrase j fuel →
      ∃ f ∈ info.flatMap (fun e => e.features), ∃ r : Int,
        (r = 0 ∨ r = 1 ∨ r = 2 ∨ r = 3 ∨ r = 4) ∧
        ∃ g : Nat, c = window_call w (g : Int) (f + r * (2 * (w : Int) + 1)) := by
  intro fuel
  induction fuel with
  | zero => intro cur phrase j c hc; exact absurd hc (List.not_mem_nil c)
  | succ fuel ih =>
    intro cur phrase j c hc
    unfold gaz_extension_calls at hc
    split at hc
    · rcases hfind : assocFind gmap (phrase ++ " " ++ (words.getD j default).raw_lemma)
          with _ | idx
      · rw [hfind] at hc
        exact absurd hc (List.not_mem_nil c)
      · rw [hfind] at hc
        rcases List.mem_append.mp hc with h | h
        · obtain ⟨f, hf, hr⟩ := gaz_role_calls_spec w _ i j c h
          exact ⟨f, features_getD_mem info idx f hf, hr⟩
        · exact ih _ _ _ c h
    · exact absurd hc (List.not_mem_nil c)

theorem gaz_calls_spec (w : Nat) (info : List gazetteer_info) (gmap : List (String × Nat))
    (words : List ner_word) (c : Call) (hc : c ∈ gaz_calls w info gmap words) :
    ∃ f ∈ info.flatMap (fun e => e.features), ∃ r : Int,
      (r = 0 ∨ r = 1 ∨ r = 2 ∨ r = 3 ∨ r = 4) ∧
      ∃ g : Nat, c = window_call w (g : Int) (f + r * (2 * (w : Int) + 1)) := by
  unfold gaz_calls at hc
  rw [List.mem_flatMap] at hc
  obtain ⟨i, _, hc⟩ := hc
  rcases hfind : assocFind gmap (words.getD i default).raw_lemma with _ | idx
  · rw [hfind] at hc
    exact absurd hc (List.not_mem_nil c)
  · rw [hfind] at hc
    rcases List.mem_append.mp hc with h | h
    · obtain ⟨f, hf, hr⟩ := gaz_unigram_calls_spec w _ i c h
      exact ⟨f, features_getD_mem info idx f hf, hr⟩
    · exact gaz_extension_calls_spec w info gmap words i words.length _ _ _ c h

/-- Every emission call any processor makes centres on one of its reserved
band centres and has its relative range inside `[-w, w]`. -/
theorem calls_spec (env : ner_env) (w : Nat) (proc : processor) (s : ner_sentence) :
    ∀ c ∈ calls env w proc s,
      c.f ∈ centersOf env w proc s ∧ -(w : Int) ≤ c.lo ∧ c.hi ≤ (w : Int) := by
  intro c hc
  cases proc with
  | brown_clusters clusters bmap =>
    simp only [calls] at hc
    rw [List.mem_flatMap] at hc
    obtain ⟨i, _, hc⟩ := hc
    rcases hfind : assocFind bmap (wordAt s i).raw_lemma with _ | cid
    · rw [hfind] at hc
      exact absurd hc (List.not_mem_nil c)
    · rw [hfind] at hc
      rw [List.mem_map] at hc
      obtain ⟨f, hf, rfl⟩ := hc
      exact ⟨clusters_getD_mem clusters cid f hf, le_refl _, le_refl _⟩
  | czech_add_containers => exact absurd hc (List.not_mem_nil c)
  | czech_lemma_term =>
    simp only [calls] at hc
    rw [List.mem_flatMap] at hc
    obtain ⟨i, hi, hc⟩ := hc
    rw [List.mem_map] at hc
    obtain ⟨k, hk, rfl⟩ := hc
    refine ⟨?_, le_refl _, le_refl _⟩
    simp only [centersOf]
    rw [List.mem_flatMap]
    exact ⟨wordAt s i, wordAt_mem s i (List.mem_range.mp hi), List.mem_map.mpr ⟨k, hk, rfl⟩⟩
  | form => exact lookup_outer_calls_spec env w s ner_word.form c hc
  | form_capitalization =>
    simp only [calls] at hc
    rw [List.mem_flatMap] at hc
    obtain ⟨i, _, hc⟩ := hc
    obtain ⟨f, hf, rfl⟩ := cap_calls_at_spec env.cat_Lut env.cat_Ll _ _ _ w i _ c hc
    exact ⟨hf, le_refl _, le_refl _⟩
  | gazetteers info gmap =>
    obtain ⟨f, hf, r, hr, g, rfl⟩ :=
      gaz_calls_spec w info gmap s.words c (by simpa only [calls] using hc)
    refine ⟨?_, le_refl _, le_refl _⟩
    simp only [centersOf]
    rw [List.mem_flatMap]
    refine ⟨f, hf, ?_⟩
    unfold gaz_band_centers
    rcases hr with h | h | h | h | h <;> subst h <;> simp [window_call]
  | lemma_feature => exact lookup_outer_calls_spec env w s ner_word.lemma_id c hc
  | number_time_value =>
    simp only [calls] at hc
    rw [List.mem_flatMap] at hc
    obtain ⟨i, _, hc⟩ := hc
    obtain ⟨k, hk, rfl⟩ := ntv_calls_at_spec env.lookup w i _ c hc
    refine ⟨?_, le_refl _, le_refl _⟩
    have : k = "H" ∨ k = "M" ∨ k = "d" ∨ k = "m" ∨ k = "y" ∨ k = "t" := by simpa using hk
    rcases this with h | h | h | h | h | h <;> subst h <;> simp [centersOf, window_call]
  | previous_stage =>
    simp only [calls] at hc
    rw [List.mem_filterMap] at hc
    obtain ⟨i, _, hci⟩ := hc
    by_cases hb : (prevAt s i).bilou ≠ bilou_type.unknown
    · rw [if_pos hb] at hci
      obtain rfl : Call.mk (i : Int) (env.lookup (ps_key (prevAt s i))) 1 (w : Int) = c :=
        Option.some.inj hci
      refine ⟨?_, by show -(w : Int) ≤ 1; omega, le_refl _⟩
      by_cases hl : i < s.previous_stage.length
      · refine List.mem_map.mpr ⟨prevAt s i, ?_, rfl⟩
        unfold prevAt
        rw [List.getD_eq_getElem s.previous_stage default hl]
        exact List.getElem_mem hl
      · exfalso
        apply hb
        unfold prevAt
        rw [List.getD_eq_default s.previous_stage default (by omega)]
        rfl
    · rw [if_neg hb] at hci
      exact absurd hci (by simp)
  | raw_lemma => exact lookup_outer_calls_spec env w s ner_word.raw_lemma c hc
  | raw_lemma_capitalization =>
    simp only [calls] at hc
    rw [List.mem_flatMap] at hc
    obtain ⟨i, _, hc⟩ := hc
    obtain ⟨f, hf, rfl⟩ := cap_calls_at_spec env.cat_Lut env.cat_Ll _ _ _ w i _ c hc
    exact ⟨hf, le_refl _, le_refl _⟩
  | tag => exact lookup_outer_calls_spec env w s ner_word.tag c hc
  | url_email_detector url email => exact absurd hc (List.not_mem_nil c)

/-- C2: band confinement.  For every processor and sentence, whatever
`process_sentence` appends at any position `p` is `f + δ` for some band
centre `f` of the processor and some offset `δ ∈ [-w, w]`; no emitted id
leaves its centre's reserved `2w+1` band. -/
theorem band_confinement (env : ner_env) (w : Nat) (proc : processor) (s : ner_sentence)
    (feats : Features) (p : Nat) (hp : p < feats.length) :
    ∃ extra, (process_sentence env w proc s feats).getD p [] = feats.getD p [] ++ extra ∧
      ∀ id ∈ extra, ∃ f ∈ centersOf env w proc s, ∃ δ : Int,
        -(w : Int) ≤ δ ∧ δ ≤ (w : Int) ∧ id = f + δ := by
  refine ⟨(calls env w proc s).flatMap (fun c => callAppend c p),
    applyCalls_getD _ _ p hp, ?_⟩
  intro id hid
  rw [List.mem_flatMap] at hid
  obtain ⟨c, hc, hidc⟩ := hid
  obtain ⟨hcf, hlo, hhi⟩ := calls_spec env w proc s c hc
  unfold callAppend at hidc
  split at hidc
  · next h =>
    refine ⟨c.f, hcf, (p : Int) - c.i, by omega, by omega, ?_⟩
    rw [List.mem_singleton.mp hidc]
    ring
  · exact absurd hidc (List.not_mem_nil id)

/-- Witness of C2 at a concrete input: the `Form` processor with window 2
on a one-token sentence; the id 3 that lands at position 0 is the
empty-string sentinel centre 2 plus offset 1 (from the outer-words call at
virtual position -1). -/
theorem band_confinement_witness :
    ∃ extra,
      (process_sentence ps_env 2 .form ⟨[mkForm "x"], []⟩ [[]]).getD 0 [] =
        ([[]] : Features).getD 0 [] ++ extra ∧
      ∀ id ∈ extra, ∃ f ∈ centersOf ps_env 2 .form ⟨[mkForm "x"], []⟩, ∃ δ : Int,
        -((2 : Nat) : Int) ≤ δ ∧ δ ≤ ((2 : Nat) : Int) ∧ id = f + δ :=
  band_confinement ps_env 2 .form ⟨[mkForm "x"], []⟩ [[]] 0 (by decide)

/-- A two-token sentence whose first token has raw lemma "bank". -/
def bank_sentence : ner_sentence := ⟨[⟨"", "bank", "", "", ""⟩, mkForm "x"], []⟩

/-- Witness of C8's process part: both cluster features of "bank" (centres
2 and 7) land at position 1, shifted by the offset 1 from the "bank" token
at position 0. -/
theorem brown_clusters_scenario_witness :
    (2 + (((1 : Nat) : Int) - ((0 : Nat) : Int))) ∈
      (process_sentence ps_env 2 (.brown_clusters [[2, 7]] [("bank", 0)]) bank_sentence
        [[], []]).getD 1 [] ∧
    (7 + (((1 : Nat) : Int) - ((0 : Nat) : Int))) ∈
      (process_sentence ps_env 2 (.brown_clusters [[2, 7]] [("bank", 0)]) bank_sentence
        [[], []]).getD 1 [] :=
  brown_clusters_scenario.2 ps_env bank_sentence [[], []] rfl 0 1 (by decide) (by decide)
    rfl (by decide) (by decide)

end NameTag
